import Mathlib

/-!
Shallow embedding of the fmp4-parse crate (src/segment.rs, src/writer.rs,
src/error.rs) for checking the natural-language specification against the code.

The external `mp4` box-codec crate is out of scope of the repository; its typed
box structures are modelled below at box granularity, faithful to the fields
the repository's code reads and writes.  Machine integers are modelled as `Nat`;
where the source performs `u32` arithmetic that can overflow (release-mode
wrapping semantics) the model reduces modulo `2^32` explicitly.
-/

set_option linter.unusedVariables false

namespace Fmp4

/-- `2^32`, the modulus of Rust `u32` arithmetic. -/
def U32 : Nat := 4294967296

/-- Modelled from the spec: the external codec's time-to-sample entry
(`mp4::stts::SttsEntry`), fields `sample_count` and `sample_delta` (both u32).
`SttsEntry::default()` is the all-zero entry. -/
structure SttsEntry where
  sample_count : Nat
  sample_delta : Nat
  deriving DecidableEq

def SttsEntry.default : SttsEntry := ⟨0, 0⟩

/-- Modelled from the spec: the external codec's sample-to-chunk entry
(`mp4::stsc::StscEntry`): `first_chunk`, `samples_per_chunk`,
`sample_description_index`, `first_sample` (all u32). -/
structure StscEntry where
  first_chunk : Nat
  samples_per_chunk : Nat
  sample_description_index : Nat
  first_sample : Nat
  deriving DecidableEq

/-- Modelled from the spec: the run box (`TrunBox`) fields read by the code:
`sample_count` (u32) and the explicit per-sample sizes list. -/
structure TrunBox where
  sample_count : Nat
  sample_sizes : List Nat
  deriving DecidableEq

/-- Modelled from the spec: the track-fragment header (`TfhdBox`) fields read
by the code: `track_id` and the optional per-fragment defaults. -/
structure TfhdBox where
  track_id : Nat
  default_sample_duration : Option Nat
  default_sample_size : Option Nat
  sample_description_index : Option Nat
  deriving DecidableEq

/-- Modelled from the spec: a track fragment (`TrafBox`): header plus
zero-or-one run box. -/
structure TrafBox where
  tfhd : TfhdBox
  trun : Option TrunBox
  deriving DecidableEq

/-- Modelled from the spec: a movie-fragment box (`MoofBox`): its list of
track fragments. -/
structure MoofBox where
  trafs : List TrafBox
  deriving DecidableEq

/-- Modelled from the spec: the file-type box (`FtypBox`), brands as
four-character codes represented by `Nat`. -/
structure FtypBox where
  major_brand : Nat
  minor_version : Nat
  compatible_brands : List Nat
  deriving DecidableEq

def FtypBox.default : FtypBox := ⟨0, 0, []⟩

/-- Modelled from the spec: the segment-type box (`StypBox`). -/
structure StypBox where
  major_brand : Nat
  minor_version : Nat
  compatible_brands : List Nat
  deriving DecidableEq

def StypBox.default : StypBox := ⟨0, 0, []⟩

/-- Modelled from the spec: the supported codec-specific sample-description
boxes of the external codec are opaque typed payloads. -/
structure Avc1Box where
  params : Nat
  deriving DecidableEq

structure Hev1Box where
  params : Nat
  deriving DecidableEq

structure Vp09Box where
  params : Nat
  deriving DecidableEq

structure Mp4aBox where
  params : Nat
  deriving DecidableEq

structure Tx3gBox where
  params : Nat
  deriving DecidableEq

/-- Modelled from the spec: the sample-description box (`StsdBox`) holds at
most one of each supported codec variant. -/
structure StsdBox where
  avc1 : Option Avc1Box
  hev1 : Option Hev1Box
  vp09 : Option Vp09Box
  mp4a : Option Mp4aBox
  tx3g : Option Tx3gBox
  deriving DecidableEq

def StsdBox.default : StsdBox := ⟨none, none, none, none, none⟩

structure SttsBox where
  entries : List SttsEntry
  deriving DecidableEq

structure StssBox where
  entries : List Nat
  deriving DecidableEq

structure StscBox where
  entries : List StscEntry
  deriving DecidableEq

structure StszBox where
  sample_count : Nat
  sample_sizes : List Nat
  deriving DecidableEq

structure StcoBox where
  entries : List Nat
  deriving DecidableEq

structure Co64Box where
  entries : List Nat
  deriving DecidableEq

/-- Modelled from the spec: the sample table box (`StblBox`). -/
structure StblBox where
  stsd : StsdBox
  stts : SttsBox
  stss : Option StssBox
  stsc : StscBox
  stsz : StszBox
  stco : Option StcoBox
  co64 : Option Co64Box
  deriving DecidableEq

def StblBox.default : StblBox := ⟨StsdBox.default, ⟨[]⟩, none, ⟨[]⟩, ⟨0, []⟩, none, none⟩

/-- Modelled from the spec: track header box (`TkhdBox`); `width`/`height`
hold the integer value of the codec's fixed-point fields (`.value()` /
`set_width` round-trip on whole numbers). -/
structure TkhdBox where
  track_id : Nat
  width : Nat
  height : Nat
  duration : Nat
  deriving DecidableEq

def TkhdBox.default : TkhdBox := ⟨0, 0, 0, 0⟩

structure MdhdBox where
  timescale : Nat
  duration : Nat
  deriving DecidableEq

structure HdlrBox where
  handler_type : Nat
  deriving DecidableEq

structure MinfBox where
  stbl : StblBox
  deriving DecidableEq

structure MdiaBox where
  mdhd : MdhdBox
  hdlr : HdlrBox
  minf : MinfBox
  deriving DecidableEq

/-- Modelled from the spec: a track box (`TrakBox`). -/
structure TrakBox where
  tkhd : TkhdBox
  mdia : MdiaBox
  deriving DecidableEq

def TrakBox.default : TrakBox :=
  ⟨TkhdBox.default, ⟨⟨0, 0⟩, ⟨0⟩, ⟨StblBox.default⟩⟩⟩

/-- Modelled from the spec: the track-extends box (`TrexBox`) carrying the
per-track fragment defaults. -/
structure TrexBox where
  track_id : Nat
  default_sample_description_index : Nat
  default_sample_duration : Nat
  default_sample_size : Nat
  default_sample_flags : Nat
  deriving DecidableEq

structure MvexBox where
  trex : TrexBox
  deriving DecidableEq

/-- Modelled from the spec: the movie header box (`MvhdBox`).  Its default
value has timescale 1000 and `next_track_id` 1 (the finalize loop probes
track ids sequentially starting at 1). -/
structure MvhdBox where
  version : Nat
  creation_time : Nat
  modification_time : Nat
  timescale : Nat
  duration : Nat
  next_track_id : Nat
  deriving DecidableEq

def MvhdBox.default : MvhdBox :=
  { version := 0, creation_time := 0, modification_time := 0,
    timescale := 1000, duration := 0, next_track_id := 1 }

/-- Modelled from the spec: the movie-metadata box (`MoovBox`): movie header,
track boxes, optional movie-extends box. -/
structure MoovBox where
  mvhd : MvhdBox
  traks : List TrakBox
  mvex : Option MvexBox
  deriving DecidableEq

def MoovBox.default : MoovBox := ⟨MvhdBox.default, [], none⟩

/-- Errors of `src/error.rs` (`Fmp4ParseError`).  `codecOrIo` stands for both
`IoError` and `Mp4Error` (failures propagated from the external codec or the
byte source); `invalidFormat` is the repository's own format-violation case. -/
inductive Fmp4ParseError where
  | codecOrIo : Fmp4ParseError
  | invalidFormat (msg : String) : Fmp4ParseError
  deriving DecidableEq

/-- `Chunk` of `src/segment.rs`: one moof box paired with the raw payload
bytes of its mdat box. -/
structure Chunk where
  moof : MoofBox
  mdat : List Nat
  deriving DecidableEq

/-- `InitialSegment` of `src/segment.rs`. -/
structure InitialSegment where
  ftyp : FtypBox
  moov : MoovBox
  deriving DecidableEq

def InitialSegment.default : InitialSegment := ⟨FtypBox.default, MoovBox.default⟩

/-- `MediaSegment` of `src/segment.rs`. -/
structure MediaSegment where
  styp : StypBox
  chunks : List Chunk
  deriving DecidableEq

def MediaSegment.default : MediaSegment := ⟨StypBox.default, []⟩

/-- The first track fragment of a chunk's moof whose header carries the given
track id — `chunk.moof.trafs.iter().find(|traf| traf.tfhd.track_id == track_id)`
as used throughout `src/segment.rs`. -/
def Chunk.findTraf (c : Chunk) (track_id : Nat) : Option TrafBox :=
  c.moof.trafs.find? (fun traf => traf.tfhd.track_id == track_id)

/-- `MediaSegment::stts_entries` (src/segment.rs): one entry per chunk; the
entry stays `SttsEntry::default()` when the chunk has no track fragment for
`track_id`, otherwise carries the run's sample count (0 when the run box is
absent) and the fragment default duration falling back to `default`. -/
def MediaSegment.stts_entries (m : MediaSegment) (track_id default : Nat) :
    List SttsEntry :=
  m.chunks.map (fun c =>
    match c.findTraf track_id with
    | some traf =>
        { sample_count := (traf.trun.map (fun trun => trun.sample_count)).getD 0,
          sample_delta := traf.tfhd.default_sample_duration.getD default }
    | none => SttsEntry.default)

/-- The merge test of `MediaSegment::stsc_entries`:
`entries.last().is_some_and(|e| e.samples_per_chunk == n && e.sample_description_index == sdi)`. -/
def lastEntryMatches (entries : List StscEntry) (n sdi : Nat) : Bool :=
  match entries.getLast? with
  | some e => e.samples_per_chunk == n && e.sample_description_index == sdi
  | none => false

/-- One chunk of the `stsc_entries` loop body.  Returns `none` when the code
panics: a matching track fragment whose `trun` is `None` is unwrapped.
The u32 counters wrap modulo `2^32` (release-mode semantics). -/
def stscStep (track_id default : Nat) (st : List StscEntry × Nat × Nat)
    (c : Chunk) : Option (List StscEntry × Nat × Nat) :=
  match c.findTraf track_id with
  | none => some st
  | some traf =>
    match traf.trun with
    | none => none
    | some trun =>
      let (entries, chunk_count, sample_count) := st
      let sdi := traf.tfhd.sample_description_index.getD default
      let entries' :=
        if lastEntryMatches entries trun.sample_count sdi then entries
        else entries ++ [{ first_chunk := chunk_count,
                           samples_per_chunk := trun.sample_count,
                           sample_description_index := sdi,
                           first_sample := sample_count }]
      some (entries', (chunk_count + 1) % U32,
            (sample_count + trun.sample_count) % U32)

/-- Left-to-right fold of `stscStep` over a chunk list. -/
def stscFold (track_id default : Nat) :
    List Chunk → List StscEntry × Nat × Nat → Option (List StscEntry × Nat × Nat)
  | [], st => some st
  | c :: cs, st =>
    match stscStep track_id default st c with
    | none => none
    | some st' => stscFold track_id default cs st'

/-- `MediaSegment::stsc_entries` (src/segment.rs): run-length encodes the
chunks carrying a run for `track_id`, starting the counters at
`chunk_offset.unwrap_or(1)` / `sample_offset.unwrap_or(1)`.  `none` models the
panic on a matching track fragment without a run box. -/
def MediaSegment.stsc_entries (m : MediaSegment) (track_id default : Nat)
    (chunk_offset sample_offset : Option Nat) :
    Option (List StscEntry × Nat × Nat) :=
  stscFold track_id default m.chunks ([], chunk_offset.getD 1, sample_offset.getD 1)

/-- One chunk of the `stsz_entries` loop body; `none` models the same panic. -/
def stszStep (track_id default : Nat) (acc : List Nat) (c : Chunk) :
    Option (List Nat) :=
  match c.findTraf track_id with
  | none => some acc
  | some traf =>
    match traf.trun with
    | none => none
    | some trun =>
      if trun.sample_sizes.isEmpty then
        some (acc ++ List.replicate trun.sample_count
                       (traf.tfhd.default_sample_size.getD default))
      else
        some (acc ++ trun.sample_sizes)

def stszFold (track_id default : Nat) :
    List Chunk → List Nat → Option (List Nat)
  | [], acc => some acc
  | c :: cs, acc =>
    match stszStep track_id default acc c with
    | none => none
    | some acc' => stszFold track_id default cs acc'

/-- `MediaSegment::stsz_entries` (src/segment.rs): per matching chunk, the
run's explicit sizes verbatim when nonempty, otherwise the fragment (or
given) default size repeated `sample_count` times. -/
def MediaSegment.stsz_entries (m : MediaSegment) (track_id default : Nat) :
    Option (List Nat) :=
  stszFold track_id default m.chunks []

/-- Modelled from the spec: `Mp4Box::box_size()` of the external codec —
each box's on-disk size including its 8-byte header. -/
def tfhdBoxSize (t : TfhdBox) : Nat :=
  16 + (if t.default_sample_duration.isSome then 4 else 0)
     + (if t.default_sample_size.isSome then 4 else 0)
     + (if t.sample_description_index.isSome then 4 else 0)

def trunBoxSize (r : TrunBox) : Nat :=
  20 + 4 * r.sample_sizes.length

def trafBoxSize (t : TrafBox) : Nat :=
  8 + tfhdBoxSize t.tfhd + ((t.trun.map trunBoxSize).getD 0)

def moofBoxSize (b : MoofBox) : Nat :=
  16 + (b.trafs.map trafBoxSize).sum

def ftypBoxSize (f : FtypBox) : Nat :=
  16 + 4 * f.compatible_brands.length

/-- `MediaSegment::get_size` (src/segment.rs): per chunk, the moof box size
plus the mdat header size (`mp4::HEADER_SIZE = 8`) plus the payload length. -/
def MediaSegment.get_size (m : MediaSegment) : Nat :=
  (m.chunks.map (fun c => moofBoxSize c.moof + 8 + c.mdat.length)).sum

/-!
## Serialized segment streams, at box granularity

Modelled from the spec: the external box codec serializes a file as a flat
sequence of top-level boxes, each a length-prefixed four-character-code-tagged
record.  Boxes whose types the codec decodes are carried as typed values
(codec encode/decode round trip is the external contract); a payload box
(`mdat`) carries its raw bytes; any other box is an opaque `(name, payload)`
record that the segment layer skips via `mp4::skip_box`.
-/

inductive TopBox where
  | ftyp (b : FtypBox) : TopBox
  | moov (b : MoovBox) : TopBox
  | styp (b : StypBox) : TopBox
  | moof (b : MoofBox) : TopBox
  | mdat (data : List Nat) : TopBox
  | other (name : Nat) (payload : List Nat) : TopBox
  deriving DecidableEq

/-- The body of the `InitialSegment::read` loop (src/segment.rs): the last
ftyp and moov boxes win; every other top-level box is skipped. -/
def readInitLoop : List TopBox → InitialSegment → InitialSegment
  | [], acc => acc
  | .ftyp b :: rest, acc => readInitLoop rest { acc with ftyp := b }
  | .moov b :: rest, acc => readInitLoop rest { acc with moov := b }
  | _ :: rest, acc => readInitLoop rest acc

/-- `InitialSegment::read` (src/segment.rs): scan the stream, then fail with a
format violation when the movie-metadata box has no movie-extends box. -/
def InitialSegment.read (bs : List TopBox) :
    Except Fmp4ParseError InitialSegment :=
  let data := readInitLoop bs InitialSegment.default
  if data.moov.mvex.isNone then
    .error (.invalidFormat "Fmp4 initial segment must be set MvexBox.")
  else
    .ok data

/-- `InitialSegment::write` (src/segment.rs): the ftyp box then the moov box. -/
def InitialSegment.write (s : InitialSegment) : List TopBox :=
  [.ftyp s.ftyp, .moov s.moov]

/-- `Chunk::write` (src/segment.rs): the moof box, then an mdat box whose
freshly computed header declares `HEADER_SIZE + mdat.len()` and whose payload
is the chunk's raw bytes. -/
def Chunk.write (c : Chunk) : List TopBox :=
  [.moof c.moof, .mdat c.mdat]

/-- The body of the `MediaSegment::read` loop (src/segment.rs).  After a moof
box the next box header is read unconditionally: at end of stream that read
fails with a codec error; a box other than mdat is the
"MdatBox should be after MoofBox" format violation; an mdat box completes the
chunk.  All other boxes are skipped. -/
def readMediaLoop : List TopBox → MediaSegment → Except Fmp4ParseError MediaSegment
  | [], acc => .ok acc
  | .styp b :: rest, acc => readMediaLoop rest { acc with styp := b }
  | .moof b :: rest, acc =>
    match rest with
    | [] => .error .codecOrIo
    | .mdat d :: rest' =>
        readMediaLoop rest' { acc with chunks := acc.chunks ++ [⟨b, d⟩] }
    | _ :: _ =>
        .error (.invalidFormat "MdatBox should be after MoofBox in the media segment")
  | _ :: rest, acc => readMediaLoop rest acc

/-- `MediaSegment::read` (src/segment.rs). -/
def MediaSegment.read (bs : List TopBox) :
    Except Fmp4ParseError MediaSegment :=
  readMediaLoop bs MediaSegment.default

/-- `MediaSegment::write` (src/segment.rs): the styp box, then every chunk. -/
def MediaSegment.write (m : MediaSegment) : List TopBox :=
  .styp m.styp :: m.chunks.flatMap Chunk.write

/-- `true` exactly on the repository's own format-violation error. -/
def isInvalidFormat {α : Type} : Except Fmp4ParseError α → Bool
  | .error (.invalidFormat _) => true
  | _ => false

/-- The position-violation predicate on a serialized media-segment stream:
scanning left to right, some movie-fragment box is followed by a further box
that is not a payload (mdat) box.  (A moof box at the very end of the stream
is a codec/IO error instead, not a format violation.) -/
def mediaViol : List TopBox → Bool
  | [] => false
  | .moof _ :: rest =>
    match rest with
    | [] => false
    | .mdat _ :: rest' => mediaViol rest'
    | _ :: _ => true
  | _ :: rest => mediaViol rest

/-!
## Track configuration (src/writer.rs)
-/

/-- `MediaBox` of src/writer.rs: the closed tagged union over supported codec
sample-description variants. -/
inductive MediaBox where
  | avc1 (b : Avc1Box) : MediaBox
  | hev1 (b : Hev1Box) : MediaBox
  | vp9 (b : Vp09Box) : MediaBox
  | mp4a (b : Mp4aBox) : MediaBox
  | tx3g (b : Tx3gBox) : MediaBox
  | unknown : MediaBox
  deriving DecidableEq

/-- `impl From<&StblBox> for MediaBox` (src/writer.rs): first match wins among
avc1, hev1, vp09, mp4a, tx3g; none matching gives the unknown variant. -/
def MediaBox.fromStbl (stbl : StblBox) : MediaBox :=
  match stbl.stsd.avc1 with
  | some b => .avc1 b
  | none =>
    match stbl.stsd.hev1 with
    | some b => .hev1 b
    | none =>
      match stbl.stsd.vp09 with
      | some b => .vp9 b
      | none =>
        match stbl.stsd.mp4a with
        | some b => .mp4a b
        | none =>
          match stbl.stsd.tx3g with
          | some b => .tx3g b
          | none => .unknown

/-- `TrackBaseData` (src/writer.rs). -/
structure TrackBaseData where
  width : Nat
  height : Nat
  timescale : Nat
  media_box : MediaBox
  deriving DecidableEq

/-- `impl From<&TrakBox> for TrackBaseData` (src/writer.rs). -/
def TrackBaseData.fromTrak (trak : TrakBox) : TrackBaseData :=
  { width := trak.tkhd.width,
    height := trak.tkhd.height,
    timescale := trak.mdia.mdhd.timescale,
    media_box := MediaBox.fromStbl trak.mdia.minf.stbl }

/-- `TrackExtendData` (src/writer.rs). -/
structure TrackExtendData where
  track_id : Nat
  default_sample_description_index : Nat
  default_sample_duration : Nat
  default_sample_size : Nat
  default_sample_flags : Nat
  deriving DecidableEq

/-- `impl From<&MvexBox> for TrackExtendData` (src/writer.rs). -/
def TrackExtendData.fromMvex (mvex : MvexBox) : TrackExtendData :=
  { track_id := mvex.trex.track_id,
    default_sample_description_index := mvex.trex.default_sample_description_index,
    default_sample_duration := mvex.trex.default_sample_duration,
    default_sample_size := mvex.trex.default_sample_size,
    default_sample_flags := mvex.trex.default_sample_flags }

/-- `TrackData` (src/writer.rs). -/
structure TrackData where
  base : TrackBaseData
  extend : TrackExtendData
  deriving DecidableEq

/-- `impl TryFrom<&MoovBox> for TrackData` (src/writer.rs): a format violation
when the moov has no mvex box, or when no trak box's track id matches the
mvex box's track id. -/
def TrackData.tryFromMoov (moov : MoovBox) : Except Fmp4ParseError TrackData :=
  match moov.mvex with
  | none => .error (.invalidFormat "Missing mvex box")
  | some mvex =>
    let extend := TrackExtendData.fromMvex mvex
    match moov.traks.find? (fun trak => trak.tkhd.track_id == extend.track_id) with
    | none => .error (.invalidFormat "Missing trak box")
    | some trak => .ok { base := TrackBaseData.fromTrak trak, extend := extend }

/-!
## The hybrid writer (src/writer.rs)

The output stream is modelled as the ordered list of writes the code issues;
each item knows its byte length, so stream positions are the running byte
totals.  Writes are sequential until `finalize`'s single seek-back, which is
recorded separately (`patch_pos`/`patch`).  The `HashMap` of tracks is
modelled as an association list; iteration order of `add_fragment`'s outer
loop is the list order (one of the hash map's possible orders).
-/

/-- Four-character-code constants used as box names in written headers. -/
def mdatName : Nat := 0x6D646174

def freeName : Nat := 0x66726565

/-- Handler-type four-character codes installed by `finalize`. -/
def videHandler : Nat := 0x76696465

def sounHandler : Nat := 0x736F756E

/-- One write issued to the output stream:
a raw 8-byte box header (`BoxHeader::write`), a moof box
(`moof.write_box`, `moofBoxSize` bytes), raw payload bytes (`write_all`),
or the ftyp box (`ftyp.write_box`). -/
inductive OutItem where
  | header (name size : Nat) : OutItem
  | moofData (b : MoofBox) : OutItem
  | bytes (bs : List Nat) : OutItem
  | ftypData (f : FtypBox) : OutItem
  deriving DecidableEq

/-- Byte length of one written item. -/
def OutItem.len : OutItem → Nat
  | .header _ _ => 8
  | .moofData b => moofBoxSize b
  | .bytes bs => bs.length
  | .ftypData f => ftypBoxSize f

/-- The stream position after a sequence of writes. -/
def outLen (out : List OutItem) : Nat := (out.map OutItem.len).sum

/-- `Track` (src/writer.rs): one per-track accumulator. -/
structure Track where
  data : TrackData
  stts_entries : List SttsEntry
  stsc_entries : List StscEntry
  stsz_entries : List Nat
  co64_entries : List Nat
  chunk_offset : Nat
  sample_offset : Nat
  deriving DecidableEq

/-- `HybridMp4Writer` (src/writer.rs); `out` is the ordered write log. -/
structure Writer where
  out : List OutItem
  free_pos : Nat
  free_size : Nat
  tracks : List (Nat × Track)
  deriving DecidableEq

/-- `FMp4Config` (src/writer.rs): brands plus the track map. -/
structure FMp4Config where
  major_brand : Nat
  minor_version : Nat
  compatible_brands : List Nat
  tracks : List (Nat × TrackData)

/-- `HybridMp4Writer::initialize` (src/writer.rs): write the ftyp box, record
the stream position, write a zero-sized `free` placeholder header there, and
materialize one accumulator per configured track with both counters at 1. -/
def initWriter (config : FMp4Config) : Writer :=
  let ftyp : FtypBox :=
    { major_brand := config.major_brand,
      minor_version := config.minor_version,
      compatible_brands := config.compatible_brands }
  let free_pos := ftypBoxSize ftyp
  { out := [.ftypData ftyp, .header freeName 0],
    free_pos := free_pos,
    free_size := 0,
    tracks := config.tracks.map (fun p =>
      (p.1, { data := p.2, stts_entries := [], stsc_entries := [],
              stsz_entries := [], co64_entries := [],
              chunk_offset := 1, sample_offset := 1 })) }

/-- The inner chunk loop of `add_fragment` (src/writer.rs): write the moof
box, record the stream position plus `HEADER_SIZE` (the position immediately
after the mdat header about to be written) into the current track's
chunk-offset list, then write the mdat header and the payload bytes.  The
offset is recorded for every chunk of the segment. -/
def writeChunks (out : List OutItem) (co64 : List Nat) :
    List Chunk → List OutItem × List Nat
  | [] => (out, co64)
  | c :: cs =>
    let out1 := out ++ [.moofData c.moof]
    let offset := outLen out1 + 8
    let out2 := out1 ++ [.header mdatName (8 + c.mdat.length), .bytes c.mdat]
    writeChunks out2 (co64 ++ [offset]) cs

/-- The body of `add_fragment`'s outer loop over the track map
(src/writer.rs), one iteration per track: extend the track's stts table,
run `stsc_entries` from the track's running counters and persist the returned
counters, extend the stsz table, run the chunk loop (writing every chunk of
the segment to the output), and add the segment's size to `free_size`.
`none` models the panics inside `stsc_entries`/`stsz_entries`. -/
def addFragLoop (media : MediaSegment) :
    List OutItem → Nat → List (Nat × Track) →
    Option (List OutItem × Nat × List (Nat × Track))
  | out, free_size, [] => some (out, free_size, [])
  | out, free_size, (track_id, track) :: rest =>
    let stts' := track.stts_entries ++
      media.stts_entries track_id track.data.extend.default_sample_duration
    match media.stsc_entries track_id
        track.data.extend.default_sample_description_index
        (some track.chunk_offset) (some track.sample_offset) with
    | none => none
    | some (entries, chunk_count, sample_count) =>
      match media.stsz_entries track_id track.data.extend.default_sample_size with
      | none => none
      | some stszNew =>
        let (out', co64') := writeChunks out track.co64_entries media.chunks
        let track' : Track :=
          { track with
            stts_entries := stts',
            stsc_entries := track.stsc_entries ++ entries,
            stsz_entries := track.stsz_entries ++ stszNew,
            co64_entries := co64',
            chunk_offset := chunk_count,
            sample_offset := sample_count }
        match addFragLoop media out' (free_size + media.get_size) rest with
        | none => none
        | some (out'', free_size', rest') =>
            some (out'', free_size', (track_id, track') :: rest')

/-- `HybridMp4Writer::add_fragment` (src/writer.rs). -/
def Writer.addFragment (w : Writer) (media : MediaSegment) : Option Writer :=
  match addFragLoop media w.out w.free_size w.tracks with
  | none => none
  | some (out', free_size', tracks') =>
      some { w with out := out', free_size := free_size', tracks := tracks' }

/-- `self.tracks.get_mut(&id)` on the modelled track map. -/
def lookupTrack (ts : List (Nat × Track)) (id : Nat) : Option Track :=
  (ts.find? (fun p => p.1 == id)).map (fun p => p.2)

/-- The track duration computed by `finalize` (src/writer.rs): the sum over
the track's stts entries of `(sample_count * sample_delta) as u64`, where the
product is `u32` multiplication (wrapping modulo `2^32`) before the cast. -/
def sttsDuration (entries : List SttsEntry) : Nat :=
  (entries.map (fun e => (e.sample_count * e.sample_delta) % U32)).sum

/-- The trak box assembled by one iteration of `finalize`'s loop
(src/writer.rs): track id, geometry, durations, timescale, the
codec-specific sample-description box and handler type chosen by the track's
media-box variant, the accumulated stts/stsc/stsz tables, a default stss box,
the 64-bit chunk-offset table, and no 32-bit chunk-offset table. -/
def buildTrak (track : Track) (duration : Nat) : TrakBox :=
  let stsd : StsdBox :=
    match track.data.base.media_box with
    | .avc1 b => { StsdBox.default with avc1 := some b }
    | .hev1 b => { StsdBox.default with hev1 := some b }
    | .vp9 b => { StsdBox.default with vp09 := some b }
    | .mp4a b => { StsdBox.default with mp4a := some b }
    | .tx3g b => { StsdBox.default with tx3g := some b }
    | .unknown => StsdBox.default
  let handler : Nat :=
    match track.data.base.media_box with
    | .avc1 _ => videHandler
    | .hev1 _ => videHandler
    | .vp9 _ => videHandler
    | .mp4a _ => sounHandler
    | .tx3g _ => sounHandler
    | .unknown => (TrakBox.default).mdia.hdlr.handler_type
  { tkhd :=
      { track_id := track.data.extend.track_id,
        width := track.data.base.width,
        height := track.data.base.height,
        duration := duration },
    mdia :=
      { mdhd := { timescale := track.data.base.timescale, duration := duration },
        hdlr := { handler_type := handler },
        minf :=
          { stbl :=
              { stsd := stsd,
                stts := ⟨track.stts_entries⟩,
                stss := some ⟨[]⟩,
                stsc := ⟨track.stsc_entries⟩,
                stsz := ⟨track.stsz_entries.length % U32, track.stsz_entries⟩,
                stco := none,
                co64 := some ⟨track.co64_entries⟩ } } } }

/-- The `while let Some(track) = self.tracks.get_mut(&moov.mvhd.next_track_id)`
loop of `finalize` (src/writer.rs).  Each iteration appends the assembled trak
box, folds the track's whole seconds of duration into the running movie
duration maximum, and increments `next_track_id`.  `none` models the division
panic when a probed track's timescale is zero; the fuel argument is chosen by
the caller large enough that it never runs out (the probed id grows strictly,
so a lookup fails once it exceeds every key). -/
def finLoop (ts : List (Nat × Track)) :
    Nat → MoovBox → Nat → Option (MoovBox × Nat)
  | 0, _, _ => none
  | fuel + 1, moov, moov_duration =>
    match lookupTrack ts moov.mvhd.next_track_id with
    | none => some (moov, moov_duration)
    | some track =>
      if track.data.base.timescale == 0 then none
      else
        let duration := sttsDuration track.stts_entries
        let trak := buildTrak track duration
        let moov_duration' :=
          if moov_duration < duration / track.data.base.timescale then
            duration / track.data.base.timescale
          else moov_duration
        finLoop ts fuel
          { moov with
            traks := moov.traks ++ [trak],
            mvhd := { moov.mvhd with next_track_id := moov.mvhd.next_track_id + 1 } }
          moov_duration'

/-- The largest key of the track map (0 when empty). -/
def maxKey (ts : List (Nat × Track)) : Nat :=
  (ts.map (fun p => p.1)).foldr max 0

/-- The result of `HybridMp4Writer::finalize` (src/writer.rs): the assembled
moov box, the sequential write log up to (not including) the moov box, the
stream position at which the moov box is then written, and the 8-byte header
written back at the recorded placeholder position by the final seek. -/
structure Finalized where
  moov : MoovBox
  out : List OutItem
  moov_pos : Nat
  patch_pos : Nat
  patch : OutItem
  deriving DecidableEq

/-- `HybridMp4Writer::finalize` (src/writer.rs).  `creation_time` models the
clock reading (seconds since the 1904 epoch at `Utc::now()`).  After the track
loop the movie duration is the running maximum scaled by the movie timescale;
the moov box is written at the current position, and the placeholder is
overwritten with an mdat header sized `HEADER_SIZE + free_size`. -/
def Writer.finalize (w : Writer) (creation_time : Nat) : Option Finalized :=
  let moov0 : MoovBox :=
    { MoovBox.default with
      mvhd := { MvhdBox.default with
                version := 1,
                creation_time := creation_time,
                modification_time := creation_time } }
  match finLoop w.tracks (maxKey w.tracks + 2) moov0 0 with
  | none => none
  | some (moov1, moov_duration) =>
    let moov2 :=
      { moov1 with
        mvhd := { moov1.mvhd with
                  duration := moov_duration * moov1.mvhd.timescale } }
    some { moov := moov2,
           out := w.out,
           moov_pos := outLen w.out,
           patch_pos := w.free_pos,
           patch := .header mdatName (8 + w.free_size) }

/-- A sequence of `add_fragment` calls. -/
def runSegments (w : Writer) : List MediaSegment → Option Writer
  | [] => some w
  | s :: ss =>
    match w.addFragment s with
    | none => none
    | some w' => runSegments w' ss

/-- A whole writer session: `initialize`, the given `add_fragment` calls, then
`finalize`. -/
def runWriter (config : FMp4Config) (segs : List MediaSegment)
    (creation_time : Nat) : Option Finalized :=
  match runSegments (initWriter config) segs with
  | none => none
  | some w => w.finalize creation_time

/-!
## Derived counting helpers
-/

/-- The number of chunks of a segment that carry a track fragment for the
given track id. -/
def countMatchingChunks (m : MediaSegment) (track_id : Nat) : Nat :=
  m.chunks.countP (fun c => (c.findTraf track_id).isSome)

/-- The sum of the runs' sample counts over the chunks of a segment that
carry a track fragment for the given track id (0 for an absent run box). -/
def sumMatchingCounts (m : MediaSegment) (track_id : Nat) : Nat :=
  (m.chunks.map (fun c =>
    match c.findTraf track_id with
    | some traf => (traf.trun.map (fun trun => trun.sample_count)).getD 0
    | none => 0)).sum

/-- How many moof boxes a write log contains. -/
def countMoofWrites (out : List OutItem) : Nat :=
  out.countP (fun i => match i with | .moofData _ => true | _ => false)

/-- The claim-following exact (non-wrapping) track duration:
`Σ sample_count * sample_delta` over a time-to-sample table.  This follows the
spec's words, for comparison with the code's `sttsDuration`. -/
def sttsExactDuration (entries : List SttsEntry) : Nat :=
  (entries.map (fun e => e.sample_count * e.sample_delta)).sum

/-- The claim's (spec §7's) track-configuration format-violation situation,
following the claim's words: no track box's track id matches the
movie-extends box's track id (which presupposes a movie-extends box). -/
def claimNoMatchingTrak (moov : MoovBox) : Bool :=
  match moov.mvex with
  | some mvex =>
      (moov.traks.find? (fun trak =>
        trak.tkhd.track_id == mvex.trex.track_id)).isNone
  | none => false

/-- The code's track-configuration format-violation condition: the
movie-extends box is missing, or no track box matches its track id. -/
def trackConfigFails (moov : MoovBox) : Bool :=
  match moov.mvex with
  | some mvex =>
      (moov.traks.find? (fun trak =>
        trak.tkhd.track_id == (TrackExtendData.fromMvex mvex).track_id)).isNone
  | none => true

end Fmp4

deriving instance DecidableEq for Except

namespace Fmp4

/-!
## Round-trip lemmas (segment model)
-/

theorem readInitLoop_write (x : InitialSegment) (acc : InitialSegment) :
    readInitLoop (InitialSegment.write x) acc = x := by
  simp [InitialSegment.write, readInitLoop]

theorem readMediaLoop_chunks (cs : List Chunk) (rest : List TopBox)
    (acc : MediaSegment) :
    readMediaLoop (cs.flatMap Chunk.write ++ rest) acc =
      readMediaLoop rest { acc with chunks := acc.chunks ++ cs } := by
  induction cs generalizing acc with
  | nil => simp
  | cons c cs ih =>
    have h : (c :: cs).flatMap Chunk.write ++ rest =
        .moof c.moof :: .mdat c.mdat :: (cs.flatMap Chunk.write ++ rest) := by
      simp [Chunk.write]
    rw [h]
    simp only [readMediaLoop]
    rw [ih]
    simp

/-- C4: serializing a well-formed segment and re-parsing the produced stream
succeeds and yields a structurally equal value (chunk payload bytes included
in the equality).  For an `InitialSegment`, well-formed means the
movie-extends box is present — which every value produced by a successful
read has (third conjunct); every `MediaSegment` round-trips. -/
theorem c4_round_trip :
    (∀ x : InitialSegment, x.moov.mvex.isSome →
        InitialSegment.read (InitialSegment.write x) = .ok x) ∧
    (∀ m : MediaSegment, MediaSegment.read (MediaSegment.write m) = .ok m) ∧
    (∀ (bs : List TopBox) (x : InitialSegment),
        InitialSegment.read bs = .ok x → x.moov.mvex.isSome) := by
  refine ⟨fun x hx => ?_, fun m => ?_, fun bs x hx => ?_⟩
  · rw [InitialSegment.read, readInitLoop_write]
    simp only [Option.isNone_iff_eq_none]
    rw [if_neg (Option.isSome_iff_ne_none.mp hx)]
  · show readMediaLoop (.styp m.styp :: m.chunks.flatMap Chunk.write)
      MediaSegment.default = .ok m
    simp only [readMediaLoop]
    rw [← List.append_nil (m.chunks.flatMap Chunk.write), readMediaLoop_chunks]
    simp [readMediaLoop, MediaSegment.default]
  · rw [InitialSegment.read] at hx
    by_cases h : (readInitLoop bs InitialSegment.default).moov.mvex.isNone
    · rw [if_pos h] at hx
      exact absurd hx (by simp)
    · rw [if_neg h] at hx
      cases hx
      rw [Option.isSome_iff_ne_none]
      simpa using h

/-- Concrete segments exercising the round trip. -/
def mvexEx : MvexBox := ⟨⟨1, 1, 1000, 4, 0⟩⟩

def initEx : InitialSegment :=
  ⟨⟨0x69736F6D, 0, [0x69736F6D]⟩, { MoovBox.default with mvex := some mvexEx }⟩

def trafEx : TrafBox :=
  { tfhd := { track_id := 1, default_sample_duration := none,
              default_sample_size := none, sample_description_index := none },
    trun := some { sample_count := 30, sample_sizes := [] } }

def chunkEx : Chunk := { moof := ⟨[trafEx]⟩, mdat := [1, 2, 3] }

def segEx : MediaSegment := ⟨StypBox.default, [chunkEx, chunkEx]⟩

theorem c4_round_trip_witness :
    InitialSegment.read (InitialSegment.write initEx) = .ok initEx ∧
    MediaSegment.read (MediaSegment.write segEx) = .ok segEx := by
  exact ⟨c4_round_trip.1 initEx (by decide), c4_round_trip.2.1 segEx⟩

/-!
## Sample-to-chunk fold lemmas
-/

theorem stscFold_append (track_id default : Nat) (cs1 cs2 : List Chunk)
    (st : List StscEntry × Nat × Nat) :
    stscFold track_id default (cs1 ++ cs2) st =
      match stscFold track_id default cs1 st with
      | none => none
      | some st' => stscFold track_id default cs2 st' := by
  induction cs1 generalizing st with
  | nil => simp [stscFold]
  | cons c cs1 ih =>
    simp only [List.cons_append, stscFold]
    cases stscStep track_id default st c with
    | none => rfl
    | some st' => exact ih st'

theorem stszFold_append (track_id default : Nat) (cs1 cs2 : List Chunk)
    (acc : List Nat) :
    stszFold track_id default (cs1 ++ cs2) acc =
      match stszFold track_id default cs1 acc with
      | none => none
      | some acc' => stszFold track_id default cs2 acc' := by
  induction cs1 generalizing acc with
  | nil => simp [stszFold]
  | cons c cs1 ih =>
    simp only [List.cons_append, stszFold]
    cases stszStep track_id default acc c with
    | none => rfl
    | some acc' => exact ih acc'

/-- The fold's counters depend only on which chunks match and their runs'
sample counts: starting from in-range u32 counters, the final chunk counter is
the start plus the number of matching chunks and the final sample counter is
the start plus the matching runs' sample-count sum, both reduced mod 2^32. -/
theorem stscFold_counters (track_id default : Nat) (cs : List Chunk)
    (es0 : List StscEntry) (c0 s0 : Nat) (es : List StscEntry) (cc sc : Nat)
    (hc0 : c0 < U32) (hs0 : s0 < U32)
    (h : stscFold track_id default cs (es0, c0, s0) = some (es, cc, sc)) :
    cc = (c0 + (cs.countP (fun c => (c.findTraf track_id).isSome))) % U32 ∧
    sc = (s0 + (cs.map (fun c =>
      match c.findTraf track_id with
      | some traf => (traf.trun.map (fun trun => trun.sample_count)).getD 0
      | none => 0)).sum) % U32 := by
  induction cs generalizing es0 c0 s0 with
  | nil =>
    simp only [stscFold, Option.some.injEq, Prod.mk.injEq] at h
    obtain ⟨he, hcc, hsc⟩ := h
    subst hcc hsc
    constructor
    · simp [Nat.mod_eq_of_lt hc0]
    · simp [Nat.mod_eq_of_lt hs0]
  | cons c cs ih =>
    cases hf : c.findTraf track_id with
    | none =>
      simp only [stscFold, stscStep, hf] at h
      obtain ⟨h1, h2⟩ := ih es0 c0 s0 hc0 hs0 h
      refine ⟨?_, ?_⟩
      · rw [h1]; simp [List.countP_cons, hf]
      · rw [h2]; simp [hf]
    | some traf =>
      cases ht : traf.trun with
      | none => simp [stscFold, stscStep, hf, ht] at h
      | some trun =>
        simp only [stscFold, stscStep, hf, ht] at h
        have hu : (0 : Nat) < U32 := by norm_num [U32]
        obtain ⟨h1, h2⟩ := ih _ _ _ (Nat.mod_lt _ hu) (Nat.mod_lt _ hu) h
        refine ⟨?_, ?_⟩
        · rw [h1, Nat.mod_add_mod]
          congr 1
          simp [List.countP_cons, hf]
          omega
        · rw [h2, Nat.mod_add_mod]
          congr 1
          simp [hf, ht]
          omega

/-- The fold fails (the source panics) as soon as some chunk's matching track
fragment has no run box. -/
theorem stscFold_none (track_id default : Nat) (cs : List Chunk)
    (st : List StscEntry × Nat × Nat)
    (h : ∃ c ∈ cs, ∃ traf, c.findTraf track_id = some traf ∧ traf.trun = none) :
    stscFold track_id default cs st = none := by
  induction cs generalizing st with
  | nil => simp at h
  | cons c cs ih =>
    obtain ⟨c', hc', traf, hf, ht⟩ := h
    simp only [List.mem_cons] at hc'
    cases hc' with
    | inl he =>
      subst he
      simp [stscFold, stscStep, hf, ht]
    | inr hm =>
      cases hf2 : c.findTraf track_id with
      | none =>
        simp only [stscFold, stscStep, hf2]
        exact ih _ ⟨c', hm, traf, hf, ht⟩
      | some traf2 =>
        cases ht2 : traf2.trun with
        | none => simp [stscFold, stscStep, hf2, ht2]
        | some trun2 =>
          simp only [stscFold, stscStep, hf2, ht2]
          exact ih _ ⟨c', hm, traf, hf, ht⟩

/-- The fold succeeds whenever every matching track fragment carries a run. -/
theorem stscFold_isSome (track_id default : Nat) (cs : List Chunk)
    (st : List StscEntry × Nat × Nat)
    (h : ∀ c ∈ cs, ∀ traf, c.findTraf track_id = some traf → traf.trun.isSome) :
    (stscFold track_id default cs st).isSome := by
  induction cs generalizing st with
  | nil => simp [stscFold]
  | cons c cs ih =>
    cases hf : c.findTraf track_id with
    | none =>
      simp only [stscFold, stscStep, hf]
      exact ih _ (fun c' hc' => h c' (List.mem_cons_of_mem _ hc'))
    | some traf =>
      have hs := h c (List.mem_cons_self _ _) traf hf
      cases ht : traf.trun with
      | none => rw [ht] at hs; simp at hs
      | some trun =>
        simp only [stscFold, stscStep, hf, ht]
        exact ih _ (fun c' hc' => h c' (List.mem_cons_of_mem _ hc'))

theorem stszFold_none (track_id default : Nat) (cs : List Chunk)
    (acc : List Nat)
    (h : ∃ c ∈ cs, ∃ traf, c.findTraf track_id = some traf ∧ traf.trun = none) :
    stszFold track_id default cs acc = none := by
  induction cs generalizing acc with
  | nil => simp at h
  | cons c cs ih =>
    obtain ⟨c', hc', traf, hf, ht⟩ := h
    simp only [List.mem_cons] at hc'
    cases hc' with
    | inl he =>
      subst he
      simp [stszFold, stszStep, hf, ht]
    | inr hm =>
      cases hf2 : c.findTraf track_id with
      | none =>
        simp only [stszFold, stszStep, hf2]
        exact ih _ ⟨c', hm, traf, hf, ht⟩
      | some traf2 =>
        cases ht2 : traf2.trun with
        | none => simp [stszFold, stszStep, hf2, ht2]
        | some trun2 =>
          cases hE : trun2.sample_sizes.isEmpty <;>
            simp only [stszFold, stszStep, hf2, ht2, hE, Bool.false_eq_true,
              if_false, if_true] <;>
            exact ih _ ⟨c', hm, traf, hf, ht⟩

theorem stszFold_isSome (track_id default : Nat) (cs : List Chunk)
    (acc : List Nat)
    (h : ∀ c ∈ cs, ∀ traf, c.findTraf track_id = some traf → traf.trun.isSome) :
    (stszFold track_id default cs acc).isSome := by
  induction cs generalizing acc with
  | nil => simp [stszFold]
  | cons c cs ih =>
    cases hf : c.findTraf track_id with
    | none =>
      simp only [stszFold, stszStep, hf]
      exact ih _ (fun c' hc' => h c' (List.mem_cons_of_mem _ hc'))
    | some traf =>
      have hs := h c (List.mem_cons_self _ _) traf hf
      cases ht : traf.trun with
      | none => rw [ht] at hs; simp at hs
      | some trun =>
        cases hE : trun.sample_sizes.isEmpty <;>
          simp only [stszFold, stszStep, hf, ht, hE, Bool.false_eq_true,
            if_false, if_true] <;>
          exact ih _ (fun c' hc' => h c' (List.mem_cons_of_mem _ hc'))

/-- The merge test is false when the entry list's last entry (if any) differs
from the incoming pair in either component. -/
theorem lastEntryMatches_eq_false (es : List StscEntry) (n sdi : Nat)
    (h : ∀ e, es.getLast? = some e →
      ¬(e.samples_per_chunk = n ∧ e.sample_description_index = sdi)) :
    lastEntryMatches es n sdi = false := by
  rw [lastEntryMatches]
  cases hL : es.getLast? with
  | none => rfl
  | some e =>
    have := h e hL
    simp only [Bool.and_eq_false_iff, beq_eq_false_iff_ne, ne_eq]
    by_cases h1 : e.samples_per_chunk = n
    · exact Or.inr (fun h2 => this ⟨h1, h2⟩)
    · exact Or.inl h1

/-!
## Claims C3, C5, C10: the sample-to-chunk and sample-size builders
-/

/-- A chunk with no track fragments at all, and the segment holding it. -/
def noTrafChunk : Chunk := { moof := ⟨[]⟩, mdat := [9] }

def segNoRun : MediaSegment := ⟨StypBox.default, [noTrafChunk]⟩

/-- C3 counterexample: on a segment with one chunk carrying no run for the
queried track, `stsc_entries` returns the chunk counter unchanged (5), not
advanced by the number of chunks in the segment (5 + 1) as the claim states;
likewise the sample counter ignores the chunk. -/
theorem c3_counterexample :
    MediaSegment.stsc_entries segNoRun 1 0 (some 5) (some 7) = some ([], 5, 7) ∧
    segNoRun.chunks.length = 1 ∧
    (5 : Nat) ≠ 5 + segNoRun.chunks.length := by
  decide

/-- C3 amended: the counters returned by `stsc_entries` advance only over the
chunks that carry a track fragment for the queried track: the returned chunk
counter is `c0` plus the number of matching chunks and the returned sample
counter is `s0` plus the matching runs' sample-count sum, in wrapping 32-bit
arithmetic. -/
theorem c3_stsc_counters (m : MediaSegment) (track_id default c0 s0 : Nat)
    (es : List StscEntry) (cc sc : Nat) (hc0 : c0 < U32) (hs0 : s0 < U32)
    (h : m.stsc_entries track_id default (some c0) (some s0) = some (es, cc, sc)) :
    cc = (c0 + countMatchingChunks m track_id) % U32 ∧
    sc = (s0 + sumMatchingCounts m track_id) % U32 := by
  simp only [MediaSegment.stsc_entries, Option.getD_some] at h
  have := stscFold_counters track_id default m.chunks [] c0 s0 es cc sc hc0 hs0 h
  simpa [countMatchingChunks, sumMatchingCounts] using this

/-- A track fragment and chunk carrying a run of 10 samples for track 1. -/
def trafEx10 : TrafBox :=
  { tfhd := trafEx.tfhd,
    trun := some { sample_count := 10, sample_sizes := [] } }

def chunkEx10 : Chunk := { moof := ⟨[trafEx10]⟩, mdat := [4, 5] }

def segC3 : MediaSegment := ⟨StypBox.default, [chunkEx, chunkEx, chunkEx10]⟩

theorem c3_stsc_counters_witness :
    (4 : Nat) = (1 + countMatchingChunks segC3 1) % U32 ∧
    (71 : Nat) = (1 + sumMatchingCounts segC3 1) % U32 :=
  c3_stsc_counters segC3 1 1 1 1 [⟨1, 30, 1, 1⟩, ⟨3, 10, 1, 61⟩] 4 71
    (by decide) (by decide) (by decide)

/-- C5: run-merge behavior of `stsc_entries`.
1. Two consecutive chunks for the queried track with the same
   `(samples_per_chunk, sample_description_index)` pair produce exactly one
   entry (shown with the full result: a one-entry list).
2. Appending a chunk whose pair differs from the last emitted entry starts a
   new entry whose `first_chunk`/`first_sample` are the running counters
   before that chunk is applied.
3. A chunk with no track fragment for the queried track neither breaks nor
   extends a run: deleting it anywhere leaves the result unchanged. -/
theorem c5_stsc_run_merge :
    (∀ (styp : StypBox) (c1 c2 : Chunk) (track_id default c0 s0 : Nat)
        (t1 t2 : TrafBox) (r1 r2 : TrunBox),
      c1.findTraf track_id = some t1 → t1.trun = some r1 →
      c2.findTraf track_id = some t2 → t2.trun = some r2 →
      r2.sample_count = r1.sample_count →
      t2.tfhd.sample_description_index.getD default =
        t1.tfhd.sample_description_index.getD default →
      MediaSegment.stsc_entries ⟨styp, [c1, c2]⟩ track_id default
          (some c0) (some s0) =
        some ([⟨c0, r1.sample_count,
               t1.tfhd.sample_description_index.getD default, s0⟩],
              ((c0 + 1) % U32 + 1) % U32,
              ((s0 + r1.sample_count) % U32 + r2.sample_count) % U32)) ∧
    (∀ (styp : StypBox) (cs : List Chunk) (c : Chunk)
        (track_id default c0 s0 : Nat) (es : List StscEntry) (cc sc : Nat)
        (t : TrafBox) (r : TrunBox),
      MediaSegment.stsc_entries ⟨styp, cs⟩ track_id default
          (some c0) (some s0) = some (es, cc, sc) →
      c.findTraf track_id = some t → t.trun = some r →
      (∀ e, es.getLast? = some e →
        ¬(e.samples_per_chunk = r.sample_count ∧
          e.sample_description_index =
            t.tfhd.sample_description_index.getD default)) →
      MediaSegment.stsc_entries ⟨styp, cs ++ [c]⟩ track_id default
          (some c0) (some s0) =
        some (es ++ [⟨cc, r.sample_count,
                     t.tfhd.sample_description_index.getD default, sc⟩],
              (cc + 1) % U32, (sc + r.sample_count) % U32)) ∧
    (∀ (styp : StypBox) (cs1 cs2 : List Chunk) (c : Chunk)
        (track_id default : Nat) (co so : Option Nat),
      c.findTraf track_id = none →
      MediaSegment.stsc_entries ⟨styp, cs1 ++ c :: cs2⟩ track_id default co so =
        MediaSegment.stsc_entries ⟨styp, cs1 ++ cs2⟩ track_id default co so) := by
  refine ⟨?_, ?_, ?_⟩
  · intro styp c1 c2 track_id default c0 s0 t1 t2 r1 r2 hf1 ht1 hf2 ht2 hp hq
    simp only [MediaSegment.stsc_entries, Option.getD_some, stscFold, stscStep,
      hf1, ht1, hf2, ht2, lastEntryMatches]
    simp [hp, hq]
  · intro styp cs c track_id default c0 s0 es cc sc t r h hf ht hne
    simp only [MediaSegment.stsc_entries, Option.getD_some] at h ⊢
    rw [stscFold_append, h]
    simp only [stscFold, stscStep, hf, ht,
      lastEntryMatches_eq_false es r.sample_count _ hne]
    simp
  · intro styp cs1 cs2 c track_id default co so hf
    show stscFold track_id default (cs1 ++ c :: cs2) _ =
      stscFold track_id default (cs1 ++ cs2) _
    rw [stscFold_append, stscFold_append]
    cases stscFold track_id default cs1 ([], co.getD 1, so.getD 1) with
    | none => rfl
    | some st => simp [stscFold, stscStep, hf]

theorem c5_stsc_run_merge_witness :
    (MediaSegment.stsc_entries ⟨StypBox.default, [chunkEx, chunkEx]⟩ 1 1
        (some 1) (some 1) =
      some ([⟨1, 30, 1, 1⟩], ((1 + 1) % U32 + 1) % U32,
            ((1 + 30) % U32 + 30) % U32)) ∧
    (MediaSegment.stsc_entries ⟨StypBox.default, [chunkEx] ++ [chunkEx10]⟩ 1 1
        (some 1) (some 1) =
      some ([⟨1, 30, 1, 1⟩] ++ [⟨2, 10, 1, 31⟩], (2 + 1) % U32,
            (31 + 10) % U32)) ∧
    (MediaSegment.stsc_entries
        ⟨StypBox.default, [chunkEx] ++ noTrafChunk :: [chunkEx10]⟩
        1 1 (some 1) (some 1) =
      MediaSegment.stsc_entries ⟨StypBox.default, [chunkEx] ++ [chunkEx10]⟩ 1 1
        (some 1) (some 1)) := by
  refine ⟨?_, ?_, ?_⟩
  · exact c5_stsc_run_merge.1 StypBox.default chunkEx chunkEx 1 1 1 1
      trafEx trafEx ⟨30, []⟩ ⟨30, []⟩ (by decide) rfl (by decide) rfl rfl rfl
  · exact c5_stsc_run_merge.2.1 StypBox.default [chunkEx] chunkEx10 1 1 1 1
      [⟨1, 30, 1, 1⟩] 2 31 trafEx10 ⟨10, []⟩ (by decide) (by decide) rfl
      (by decide)
  · exact c5_stsc_run_merge.2.2 StypBox.default [chunkEx] [chunkEx10]
      noTrafChunk 1 1 (some 1) (some 1) (by decide)

/-- The track fragment for track 1 with no run box, and the segment holding
it — the panic input of C10. -/
def panTraf : TrafBox := { tfhd := trafEx.tfhd, trun := none }

def panChunk : Chunk := { moof := ⟨[panTraf]⟩, mdat := [] }

def segPanic : MediaSegment := ⟨StypBox.default, [panChunk]⟩

/-- C10: whenever some chunk's track fragment found for the queried track id
has no run box, both `stsc_entries` and `stsz_entries` hit the source's
`unwrap` of a `None` run — modelled as returning `none` (a panic) instead of
a value; and conversely both are total (return a value) under the
precondition that every matching track fragment carries a run box. -/
theorem c10_missing_run_panics (m : MediaSegment)
    (track_id default : Nat) (co so : Option Nat) :
    ((∃ c ∈ m.chunks, ∃ traf, c.findTraf track_id = some traf ∧
        traf.trun = none) →
      m.stsc_entries track_id default co so = none ∧
      m.stsz_entries track_id default = none) ∧
    ((∀ c ∈ m.chunks, ∀ traf, c.findTraf track_id = some traf →
        traf.trun.isSome) →
      (m.stsc_entries track_id default co so).isSome ∧
      (m.stsz_entries track_id default).isSome) := by
  constructor
  · intro h
    exact ⟨stscFold_none track_id default m.chunks _ h,
           stszFold_none track_id default m.chunks _ h⟩
  · intro h
    exact ⟨stscFold_isSome track_id default m.chunks _ h,
           stszFold_isSome track_id default m.chunks _ h⟩

theorem c10_missing_run_panics_witness :
    (MediaSegment.stsc_entries segPanic 1 0 none none = none ∧
     MediaSegment.stsz_entries segPanic 1 0 = none) ∧
    ((MediaSegment.stsc_entries segEx 1 1 none none).isSome ∧
     (MediaSegment.stsz_entries segEx 1 1).isSome) := by
  constructor
  · exact (c10_missing_run_panics segPanic 1 0 none none).1
      ⟨panChunk, by decide, panTraf, by decide, rfl⟩
  · refine (c10_missing_run_panics segEx 1 1 none none).2 ?_
    intro c hc traf hft
    have hc' : c = chunkEx := by
      simp only [segEx, List.mem_cons, List.not_mem_nil, or_false] at hc
      rcases hc with h | h <;> exact h
    subst hc'
    have he : chunkEx.findTraf 1 = some trafEx := by decide
    rw [he] at hft
    cases hft
    decide

/-!
## Claim C9: where format violations arise
-/

theorem readMediaLoop_invalid_aux :
    ∀ (n : Nat) (bs : List TopBox) (acc : MediaSegment), bs.length ≤ n →
      isInvalidFormat (readMediaLoop bs acc) = mediaViol bs := by
  intro n
  induction n with
  | zero =>
    intro bs acc h
    match bs with
    | [] => rfl
    | _ :: _ => simp at h
  | succ n ih =>
    intro bs acc h
    match bs with
    | [] => rfl
    | .ftyp b :: rest =>
      simp only [readMediaLoop, mediaViol]
      exact ih rest acc (by simpa using Nat.le_of_succ_le_succ h)
    | .moov b :: rest =>
      simp only [readMediaLoop, mediaViol]
      exact ih rest acc (by simpa using Nat.le_of_succ_le_succ h)
    | .styp b :: rest =>
      simp only [readMediaLoop, mediaViol]
      exact ih rest _ (by simpa using Nat.le_of_succ_le_succ h)
    | .mdat d :: rest =>
      simp only [readMediaLoop, mediaViol]
      exact ih rest acc (by simpa using Nat.le_of_succ_le_succ h)
    | .other nm p :: rest =>
      simp only [readMediaLoop, mediaViol]
      exact ih rest acc (by simpa using Nat.le_of_succ_le_succ h)
    | .moof b :: rest =>
      match rest with
      | [] => rfl
      | .mdat d :: rest' =>
        simp only [readMediaLoop, mediaViol]
        refine ih rest' _ ?_
        simp only [List.length_cons] at h
        omega
      | .ftyp _ :: _ => rfl
      | .moov _ :: _ => rfl
      | .styp _ :: _ => rfl
      | .moof _ :: _ => rfl
      | .other _ _ :: _ => rfl

/-- C9 counterexample: building a track configuration from a movie-metadata
box that lacks a movie-extends box raises a format violation, although this
is none of the claim's three situations — in particular the claim's
track-configuration situation (no track box matching the movie-extends box's
track id) does not hold, there being no movie-extends box. -/
theorem c9_counterexample :
    isInvalidFormat (TrackData.tryFromMoov MoovBox.default) = true ∧
    MoovBox.default.mvex = none ∧
    claimNoMatchingTrak MoovBox.default = false := by
  decide

/-- C9 amended: the format-violation error is raised in exactly four
situations.  (1) Reading an initial segment errors (always with a format
violation) exactly when the scanned movie-metadata box has no movie-extends
box.  (2) Building a track configuration raises a format violation exactly
when the movie-extends box is missing or no track box matches its track id.
(3) Reading a media segment raises a format violation exactly when some
movie-fragment box is followed by a box other than a payload box (a
movie-fragment box at the very end of the stream is a codec/IO error
instead, not a format violation).  (4) Unknown top-level boxes are skipped
without effect by both readers. -/
theorem c9_format_violations :
    (∀ bs : List TopBox,
      isInvalidFormat (InitialSegment.read bs) =
        (readInitLoop bs InitialSegment.default).moov.mvex.isNone) ∧
    (∀ moov : MoovBox,
      isInvalidFormat (TrackData.tryFromMoov moov) = trackConfigFails moov) ∧
    (∀ bs : List TopBox,
      isInvalidFormat (MediaSegment.read bs) = mediaViol bs) ∧
    (∀ (name : Nat) (payload : List Nat) (rest : List TopBox)
        (acc1 : InitialSegment) (acc2 : MediaSegment),
      readInitLoop (.other name payload :: rest) acc1 = readInitLoop rest acc1 ∧
      readMediaLoop (.other name payload :: rest) acc2 =
        readMediaLoop rest acc2) := by
  refine ⟨fun bs => ?_, fun moov => ?_, fun bs => ?_,
    fun name payload rest acc1 acc2 => ⟨rfl, rfl⟩⟩
  · rw [InitialSegment.read]
    by_cases h : (readInitLoop bs InitialSegment.default).moov.mvex.isNone
    · rw [if_pos h, h]; rfl
    · rw [if_neg h]
      simp only [Bool.not_eq_true] at h
      rw [h]; rfl
  · rw [TrackData.tryFromMoov, trackConfigFails]
    cases moov.mvex with
    | none => rfl
    | some mvex =>
      simp only
      cases hF : moov.traks.find? (fun trak =>
          trak.tkhd.track_id == (TrackExtendData.fromMvex mvex).track_id) with
      | none => rfl
      | some trak => rfl
  · exact readMediaLoop_invalid_aux bs.length bs MediaSegment.default le_rfl

/-!
## Writer lemmas: byte accounting and the finalize loop
-/

theorem outLen_append (a b : List OutItem) :
    outLen (a ++ b) = outLen a + outLen b := by
  simp [outLen]

/-- The chunk loop appends exactly `get_size` bytes to the output: per chunk,
the moof box, the 8-byte mdat header, and the payload. -/
theorem writeChunks_outLen (cs : List Chunk) (out : List OutItem)
    (co64 : List Nat) :
    outLen (writeChunks out co64 cs).1 =
      outLen out + (cs.map (fun c => moofBoxSize c.moof + 8 + c.mdat.length)).sum := by
  induction cs generalizing out co64 with
  | nil => simp [writeChunks]
  | cons c cs ih =>
    rw [writeChunks, ih]
    simp [outLen_append, outLen, OutItem.len]
    ring

/-- Each iteration of `add_fragment`'s outer track loop grows the output and
`free_size` by the same amount, the segment's `get_size`; over the whole
track list both grow by the track count times `get_size`. -/
theorem addFragLoop_bytes (media : MediaSegment) (ts : List (Nat × Track))
    (out : List OutItem) (fs : Nat)
    (res : List OutItem × Nat × List (Nat × Track))
    (h : addFragLoop media out fs ts = some res) :
    outLen res.1 = outLen out + ts.length * media.get_size ∧
    res.2.1 = fs + ts.length * media.get_size := by
  induction ts generalizing out fs res with
  | nil =>
    simp only [addFragLoop, Option.some.injEq] at h
    subst h
    simp
  | cons p ts ih =>
    obtain ⟨track_id, track⟩ := p
    simp only [addFragLoop] at h
    cases hsc : media.stsc_entries track_id
        track.data.extend.default_sample_description_index
        (some track.chunk_offset) (some track.sample_offset) with
    | none => rw [hsc] at h; simp at h
    | some r =>
      obtain ⟨entries, chunk_count, sample_count⟩ := r
      rw [hsc] at h
      cases hsz : media.stsz_entries track_id
          track.data.extend.default_sample_size with
      | none => rw [hsz] at h; simp at h
      | some stszNew =>
        rw [hsz] at h
        simp only at h
        cases hrec : addFragLoop media
            (writeChunks out track.co64_entries media.chunks).1
            (fs + media.get_size) ts with
        | none => rw [hrec] at h; simp at h
        | some r2 =>
          obtain ⟨out'', fs', rest'⟩ := r2
          rw [hrec] at h
          simp only [Option.some.injEq] at h
          obtain ⟨h1, h2⟩ := ih _ _ _ hrec
          subst h
          refine ⟨?_, ?_⟩
          · simp only at h1 ⊢
            rw [h1, writeChunks_outLen]
            show outLen out + media.get_size + ts.length * media.get_size =
              outLen out + (ts.length + 1) * media.get_size
            ring
          · simp only at h2 ⊢
            rw [h2]
            show fs + media.get_size + ts.length * media.get_size =
              fs + (ts.length + 1) * media.get_size
            ring

/-- `add_fragment` preserves the placeholder position and grows the output
and `free_size` in step. -/
theorem addFragment_inv (w w' : Writer) (media : MediaSegment)
    (h : w.addFragment media = some w')
    (hInv : outLen w.out = w.free_pos + 8 + w.free_size) :
    outLen w'.out = w'.free_pos + 8 + w'.free_size ∧ w'.free_pos = w.free_pos := by
  rw [Writer.addFragment] at h
  cases hL : addFragLoop media w.out w.free_size w.tracks with
  | none => rw [hL] at h; simp at h
  | some res =>
    rw [hL] at h
    obtain ⟨out', fs', ts'⟩ := res
    simp only [Option.some.injEq] at h
    subst h
    obtain ⟨h1, h2⟩ := addFragLoop_bytes media w.tracks w.out w.free_size _ hL
    simp only at h1 h2
    constructor
    · show outLen out' = w.free_pos + 8 + fs'
      omega
    · rfl

theorem runSegments_inv (segs : List MediaSegment) (w w' : Writer)
    (h : runSegments w segs = some w')
    (hInv : outLen w.out = w.free_pos + 8 + w.free_size) :
    outLen w'.out = w'.free_pos + 8 + w'.free_size ∧ w'.free_pos = w.free_pos := by
  induction segs generalizing w with
  | nil =>
    simp only [runSegments, Option.some.injEq] at h
    subst h
    exact ⟨hInv, rfl⟩
  | cons s ss ih =>
    simp only [runSegments] at h
    cases hA : w.addFragment s with
    | none => rw [hA] at h; simp at h
    | some w1 =>
      rw [hA] at h
      obtain ⟨h1, h2⟩ := addFragment_inv w w1 s hA hInv
      obtain ⟨h3, h4⟩ := ih w1 h h1
      exact ⟨h3, h4.trans h2⟩

/-- The freshly initialized writer satisfies the byte-accounting invariant. -/
theorem initWriter_inv (config : FMp4Config) :
    outLen (initWriter config).out =
      (initWriter config).free_pos + 8 + (initWriter config).free_size := by
  simp [initWriter, outLen, OutItem.len]

/-- A successful lookup comes from a pair of the track map whose key is the
probed id. -/
theorem lookupTrack_mem (ts : List (Nat × Track)) (id : Nat) (tr : Track)
    (h : lookupTrack ts id = some tr) :
    ∃ p ∈ ts, p.1 = id ∧ p.2 = tr := by
  rw [lookupTrack] at h
  cases hF : ts.find? (fun p => p.1 == id) with
  | none => rw [hF] at h; simp at h
  | some p =>
    rw [hF] at h
    simp at h
    have hmem := List.mem_of_find?_eq_some hF
    have hkey := List.find?_some hF
    simp only [beq_iff_eq] at hkey
    exact ⟨p, hmem, hkey, h⟩

/-- Specification of the `finalize` track-probing loop: on success it appends
a block `L` of trak boxes, one per consecutive probed id starting at the
current `next_track_id`; the probe after the block fails; all other movie
header fields are preserved; and the running movie duration folds the
per-track whole-second durations with `max`. -/
theorem finLoop_spec (ts : List (Nat × Track)) :
    ∀ (fuel : Nat) (moov : MoovBox) (md : Nat) (moov' : MoovBox) (md' : Nat),
      finLoop ts fuel moov md = some (moov', md') →
      ∃ L : List TrakBox,
        moov'.traks = moov.traks ++ L ∧
        moov'.mvhd.next_track_id = moov.mvhd.next_track_id + L.length ∧
        moov'.mvhd.timescale = moov.mvhd.timescale ∧
        moov'.mvhd.duration = moov.mvhd.duration ∧
        (∀ (j : Nat) (hj : j < L.length),
          ∃ tr : Track,
            lookupTrack ts (moov.mvhd.next_track_id + j) = some tr ∧
            tr.data.base.timescale ≠ 0 ∧
            L.get ⟨j, hj⟩ = buildTrak tr (sttsDuration tr.stts_entries)) ∧
        lookupTrack ts (moov.mvhd.next_track_id + L.length) = none ∧
        md' = L.foldl
          (fun a t => max a (t.tkhd.duration / t.mdia.mdhd.timescale)) md := by
  intro fuel
  induction fuel with
  | zero => intro moov md moov' md' h; simp [finLoop] at h
  | succ fuel ih =>
    intro moov md moov' md' h
    cases hLk : lookupTrack ts moov.mvhd.next_track_id with
    | none =>
      simp only [finLoop, hLk, Option.some.injEq, Prod.mk.injEq] at h
      obtain ⟨h1, h2⟩ := h
      subst h1 h2
      exact ⟨[], by simp, by simp, rfl, rfl, by simp, by simpa using hLk, by simp⟩
    | some tr =>
      cases hTs : tr.data.base.timescale == 0 with
      | true => simp [finLoop, hLk, hTs] at h
      | false =>
        simp only [finLoop, hLk, hTs, Bool.false_eq_true, if_false] at h
        obtain ⟨L', hT, hN, hSc, hDu, hIdx, hEnd, hFold⟩ := ih _ _ _ _ h
        refine ⟨buildTrak tr (sttsDuration tr.stts_entries) :: L', ?_, ?_, ?_,
          ?_, ?_, ?_, ?_⟩
        · rw [hT]; simp
        · rw [hN]; simp only [List.length_cons]; omega
        · exact hSc
        · exact hDu
        · intro j hj
          match j with
          | 0 =>
            refine ⟨tr, by simpa using hLk, ?_, rfl⟩
            simpa using hTs
          | j + 1 =>
            obtain ⟨tr', ha, hb, hc⟩ := hIdx j (by simpa using hj)
            refine ⟨tr', ?_, hb, by simpa using hc⟩
            have : moov.mvhd.next_track_id + (j + 1) =
                moov.mvhd.next_track_id + 1 + j := by omega
            rw [this]
            exact ha
        · have : moov.mvhd.next_track_id + (L'.length + 1) =
              moov.mvhd.next_track_id + 1 + L'.length := by omega
          simp only [List.length_cons, this]
          exact hEnd
        · rw [hFold]
          simp only [List.foldl_cons]
          congr 1
          show (if md < sttsDuration tr.stts_entries / tr.data.base.timescale
            then sttsDuration tr.stts_entries / tr.data.base.timescale
            else md) = _
          have hb : (buildTrak tr (sttsDuration tr.stts_entries)).tkhd.duration =
              sttsDuration tr.stts_entries := rfl
          have hb2 : (buildTrak tr
              (sttsDuration tr.stts_entries)).mdia.mdhd.timescale =
              tr.data.base.timescale := rfl
          rw [hb, hb2]
          split <;> omega

/-- Shape of a successful `finalize`: the finalize loop succeeded on the
fresh movie box (version 1, timestamps set, probing from `next_track_id` 1),
the movie duration is the loop's running maximum scaled by the movie
timescale, and the output log, moov position, patch position and patch header
are as recorded. -/
theorem finalize_spec (w : Writer) (ct : Nat) (fz : Finalized)
    (h : w.finalize ct = some fz) :
    ∃ (moov1 : MoovBox) (md : Nat),
      finLoop w.tracks (maxKey w.tracks + 2)
        { MoovBox.default with
          mvhd := { MvhdBox.default with
                    version := 1, creation_time := ct,
                    modification_time := ct } } 0 = some (moov1, md) ∧
      fz.moov = { moov1 with
                  mvhd := { moov1.mvhd with
                            duration := md * moov1.mvhd.timescale } } ∧
      fz.out = w.out ∧ fz.moov_pos = outLen w.out ∧
      fz.patch_pos = w.free_pos ∧
      fz.patch = .header mdatName (8 + w.free_size) := by
  simp only [Writer.finalize] at h
  cases hFL : finLoop w.tracks (maxKey w.tracks + 2)
      { MoovBox.default with
        mvhd := { MvhdBox.default with
                  version := 1, creation_time := ct,
                  modification_time := ct } } 0 with
  | none => rw [hFL] at h; simp at h
  | some r =>
    obtain ⟨moov1, md⟩ := r
    rw [hFL] at h
    simp only [Option.some.injEq] at h
    subst h
    exact ⟨moov1, md, rfl, rfl, rfl, rfl, rfl, rfl⟩

/-!
## Claims about the writer
-/

/-- Concrete track data and configurations. -/
def tdEx : TrackData :=
  { base := { width := 640, height := 480, timescale := 1000,
              media_box := .unknown },
    extend := { track_id := 1, default_sample_description_index := 1,
                default_sample_duration := 1000, default_sample_size := 4,
                default_sample_flags := 0 } }

def tdEx2 : TrackData := { tdEx with extend := { tdEx.extend with track_id := 2 } }

def tdEx3 : TrackData := { tdEx with extend := { tdEx.extend with track_id := 3 } }

def cfgEx : FMp4Config :=
  { major_brand := 0x69736F6D, minor_version := 0, compatible_brands := [],
    tracks := [(1, tdEx)] }

def cfgDup : FMp4Config := { cfgEx with tracks := [(1, tdEx), (2, tdEx2)] }

def cfgGap : FMp4Config := { cfgEx with tracks := [(1, tdEx), (3, tdEx3)] }

def segOne : MediaSegment := ⟨StypBox.default, [chunkEx]⟩

/-- C1: the chunk-writing loop sits inside `add_fragment`'s per-track loop,
so on a writer holding two tracks, one `add_fragment` call with a one-chunk
segment writes that chunk's moof box twice — once per track — not exactly
once as the claim states.  (Each write is followed by its own mdat header and
payload copy, and the recorded offset points just past that copy's header.) -/
theorem c1_chunk_written_per_track :
    ((initWriter cfgDup).addFragment segOne).map
        (fun w => countMoofWrites w.out) = some 2 ∧
    segOne.chunks.length = 1 ∧ (2 : Nat) ≠ segOne.chunks.length := by
  decide

/-- C2: the chunk-offset push is unconditional over the segment's chunks, so
a chunk with no run for the single configured track still lands in that
track's chunk-offset list: after one `add_fragment` with one runless chunk
the co64 list has length 1 while the number of matching chunks is 0. -/
theorem c2_co64_counts_all_chunks :
    ((initWriter cfgEx).addFragment segNoRun).map
        (fun w => (lookupTrack w.tracks 1).map
          (fun t => t.co64_entries.length)) = some (some 1) ∧
    countMatchingChunks segNoRun 1 = 0 ∧ (1 : Nat) ≠ 0 := by
  decide

/-- C6: after a whole writer session, the header patched back at the
placeholder position declares a size of exactly 8 bytes plus the bytes
written between the end of the placeholder and the start of the moov box. -/
theorem c6_placeholder_patch (config : FMp4Config) (segs : List MediaSegment)
    (ct : Nat) (fz : Finalized) (h : runWriter config segs ct = some fz) :
    fz.patch_pos + 8 ≤ fz.moov_pos ∧
    fz.patch = .header mdatName (8 + (fz.moov_pos - (fz.patch_pos + 8))) := by
  rw [runWriter] at h
  cases hR : runSegments (initWriter config) segs with
  | none => rw [hR] at h; simp at h
  | some w =>
    rw [hR] at h
    obtain ⟨hInv, hFp⟩ := runSegments_inv segs _ w hR (initWriter_inv config)
    obtain ⟨moov1, md, hFL, hM, hO, hMp, hPp, hP⟩ := finalize_spec w ct fz h
    constructor
    · rw [hMp, hPp]
      omega
    · rw [hP]
      have hd : fz.moov_pos - (fz.patch_pos + 8) = w.free_size := by
        rw [hMp, hPp]
        omega
      rw [hd]

theorem c6_placeholder_patch_witness :
    ∃ fz, runWriter cfgEx [segEx] 0 = some fz ∧
      (fz.patch_pos + 8 ≤ fz.moov_pos ∧
       fz.patch = .header mdatName (8 + (fz.moov_pos - (fz.patch_pos + 8)))) := by
  cases h : runWriter cfgEx [segEx] 0 with
  | none => exact absurd h (by decide)
  | some fz => exact ⟨fz, rfl, c6_placeholder_patch cfgEx [segEx] 0 fz h⟩

/-- C7: `finalize` emits exactly the tracks whose ids form the contiguous run
1, 2, …, n: the emitted trak boxes carry track ids 1, …, n in order, every id
in that range is present in the writer's track map, and id n + 1 is the first
missing id (so a track whose id lies beyond the gap is dropped).  The
hypothesis ties each accumulator's stored track id to its map key, which
holds for every writer built through `initialize`. -/
theorem c7_contiguous_track_probing (w : Writer) (ct : Nat) (fz : Finalized)
    (hids : ∀ p ∈ w.tracks, p.2.data.extend.track_id = p.1)
    (h : w.finalize ct = some fz) :
    fz.moov.traks.map (fun t => t.tkhd.track_id) =
      List.range' 1 fz.moov.traks.length ∧
    (∀ i, 1 ≤ i → i ≤ fz.moov.traks.length →
      (lookupTrack w.tracks i).isSome) ∧
    lookupTrack w.tracks (fz.moov.traks.length + 1) = none := by
  obtain ⟨moov1, md, hFL, hM, hO, hMp, hPp, hP⟩ := finalize_spec w ct fz h
  obtain ⟨L, hT, hN, hSc, hDu, hIdx, hEnd, hFold⟩ :=
    finLoop_spec w.tracks _ _ _ _ _ hFL
  have hStart : ({ MoovBox.default with
      mvhd := { MvhdBox.default with
                version := 1, creation_time := ct,
                modification_time := ct } } : MoovBox).mvhd.next_track_id = 1 :=
    rfl
  rw [hStart] at hIdx hEnd
  have hTr : fz.moov.traks = L := by
    rw [hM]
    show moov1.traks = L
    rw [hT]
    rfl
  have hid : ∀ (j : Nat) (hj : j < L.length),
      (L.get ⟨j, hj⟩).tkhd.track_id = 1 + j := by
    intro j hj
    obtain ⟨tr, ha, hb, hc⟩ := hIdx j hj
    obtain ⟨p, hmem, hkey, hval⟩ := lookupTrack_mem _ _ _ ha
    have hp := hids p hmem
    rw [hval] at hp
    rw [hc]
    show tr.data.extend.track_id = 1 + j
    rw [hp, hkey]
  refine ⟨?_, ?_, ?_⟩
  · rw [hTr]
    apply List.ext_get
    · simp
    · intro i h1 h2
      have hi : i < L.length := by simpa using h1
      have hm : (L.map (fun t => t.tkhd.track_id)).get ⟨i, h1⟩ =
          (L.get ⟨i, hi⟩).tkhd.track_id := by
        simp
      rw [hm, hid i hi]
      have hr : (List.range' 1 L.length).get ⟨i, h2⟩ = 1 + i := by
        simp [Nat.add_comm]
      rw [hr]
  · intro i h1 h2
    rw [hTr] at h2
    obtain ⟨tr, ha, hb, hc⟩ := hIdx (i - 1) (by omega)
    have hrw : 1 + (i - 1) = i := by omega
    rw [hrw] at ha
    rw [ha]
    rfl
  · rw [hTr]
    have hrw : L.length + 1 = 1 + L.length := by omega
    rw [hrw]
    exact hEnd

theorem c7_contiguous_track_probing_witness :
    ∃ fz, (initWriter cfgGap).finalize 0 = some fz ∧
      (fz.moov.traks.map (fun t => t.tkhd.track_id) =
        List.range' 1 fz.moov.traks.length ∧
      (∀ i, 1 ≤ i → i ≤ fz.moov.traks.length →
        (lookupTrack (initWriter cfgGap).tracks i).isSome) ∧
      lookupTrack (initWriter cfgGap).tracks
        (fz.moov.traks.length + 1) = none) := by
  cases h : (initWriter cfgGap).finalize 0 with
  | none => exact absurd h (by decide)
  | some fz =>
    exact ⟨fz, rfl,
      c7_contiguous_track_probing (initWriter cfgGap) 0 fz (by decide) h⟩

/-- A fragment declaring 65536 samples with a per-fragment default duration
of 65536 time units: the duration product overflows u32. -/
def tfhdWrap : TfhdBox :=
  { track_id := 1, default_sample_duration := some 65536,
    default_sample_size := none, sample_description_index := none }

def segWrap : MediaSegment :=
  ⟨StypBox.default,
   [{ moof := ⟨[{ tfhd := tfhdWrap,
                  trun := some { sample_count := 65536,
                                 sample_sizes := [7] } }]⟩,
      mdat := [1] }]⟩

/-- C8 counterexample: with one stts entry of 65536 samples of delta 65536,
the emitted track duration is 0 — the per-entry product is computed in
wrapping 32-bit arithmetic — while the exact sum of products is 2^32, so the
track-header duration does not equal the exact integer sum the claim
states. -/
theorem c8_counterexample :
    (runWriter cfgEx [segWrap] 0).map (fun fz =>
      fz.moov.traks.map (fun t =>
        (t.tkhd.duration, sttsExactDuration t.mdia.minf.stbl.stts.entries))) =
      some [(0, 4294967296)] ∧ (0 : Nat) ≠ 4294967296 := by
  decide

/-- C8 amended: for every emitted track the track-header and media-header
durations both equal the sum over the track's final time-to-sample entries of
`sample_count * sample_delta` computed as wrapping 32-bit products
(`sttsDuration`), and the movie duration equals the movie timescale times the
maximum over emitted tracks (0 when none) of track duration divided by track
timescale in whole units. -/
theorem c8_finalize_durations (w : Writer) (ct : Nat) (fz : Finalized)
    (h : w.finalize ct = some fz) :
    (∀ trak ∈ fz.moov.traks,
        trak.tkhd.duration = sttsDuration trak.mdia.minf.stbl.stts.entries ∧
        trak.mdia.mdhd.duration = trak.tkhd.duration) ∧
    fz.moov.mvhd.duration =
      (fz.moov.traks.foldl
        (fun a t => max a (t.tkhd.duration / t.mdia.mdhd.timescale)) 0) *
        fz.moov.mvhd.timescale := by
  obtain ⟨moov1, md, hFL, hM, hO, hMp, hPp, hP⟩ := finalize_spec w ct fz h
  obtain ⟨L, hT, hN, hSc, hDu, hIdx, hEnd, hFold⟩ :=
    finLoop_spec w.tracks _ _ _ _ _ hFL
  have hTr : fz.moov.traks = L := by
    rw [hM]
    show moov1.traks = L
    rw [hT]
    rfl
  constructor
  · intro trak hmem
    rw [hTr] at hmem
    obtain ⟨⟨j, hj⟩, hget⟩ := List.mem_iff_get.mp hmem
    obtain ⟨tr, ha, hb, hc⟩ := hIdx j hj
    rw [← hget, hc]
    exact ⟨rfl, rfl⟩
  · have hDur : fz.moov.mvhd.duration = md * moov1.mvhd.timescale := by
      rw [hM]
    have hTsc : fz.moov.mvhd.timescale = moov1.mvhd.timescale := by
      rw [hM]
    rw [hDur, hTsc, hTr, hFold]

theorem c8_finalize_durations_witness :
    ∃ fz, (((initWriter cfgEx).addFragment segEx).getD
        (initWriter cfgEx)).finalize 0 = some fz ∧
      ((∀ trak ∈ fz.moov.traks,
          trak.tkhd.duration = sttsDuration trak.mdia.minf.stbl.stts.entries ∧
          trak.mdia.mdhd.duration = trak.tkhd.duration) ∧
       fz.moov.mvhd.duration =
         (fz.moov.traks.foldl
           (fun a t => max a (t.tkhd.duration / t.mdia.mdhd.timescale)) 0) *
           fz.moov.mvhd.timescale) := by
  cases h : (((initWriter cfgEx).addFragment segEx).getD
      (initWriter cfgEx)).finalize 0 with
  | none => exact absurd h (by decide)
  | some fz => exact ⟨fz, rfl, c8_finalize_durations _ 0 fz h⟩

end Fmp4
